import Mathlib

/-!
Shallow embedding of the Meldiron/gatus health-monitoring core:
the watchdog monitoring loop (`src/unnamed/part_000`, package watchdog),
the HTTP controller handlers (`src/controller/controller.go`),
the store interface (`src/storage/store/store.go`) and
the network client helpers (`src/client/client.go`),
together with theorems settling the spec claims about them.
-/

namespace Gatus

/-! ## Watchdog: the monitoring loop (package watchdog, src/unnamed/part_000)

`monitor` runs, per iteration: optional `monitoringMutex.Lock()`,
`service.EvaluateHealth()`, `metric.PublishMetricsForService`,
`UpdateServiceStatuses` (which calls `storage.Get().Insert`), a log line,
`HandleAlerting`, optional `monitoringMutex.Unlock()`, `time.Sleep(interval)`.
We embed one iteration as the list of its observable events, in source order. -/

inductive MonEvent
  | lockAcq
  | evaluate
  | publishMetrics
  | insertResult
  | logResult
  | handleAlerting
  | lockRel
  | sleepInterval
  deriving DecidableEq, Repr

/-- One iteration of `watchdog.monitor`, as the sequence of events it performs.
`disableMonitoringLock` is `cfg.DisableMonitoringLock`: when it is false the
iteration brackets the body in `monitoringMutex.Lock` / `Unlock`. -/
def monitorIteration (disableMonitoringLock : Bool) : List MonEvent :=
  (if disableMonitoringLock then [] else [MonEvent.lockAcq]) ++
  [MonEvent.evaluate, MonEvent.publishMetrics, MonEvent.insertResult,
   MonEvent.logResult, MonEvent.handleAlerting] ++
  (if disableMonitoringLock then [] else [MonEvent.lockRel]) ++
  [MonEvent.sleepInterval]

/-! ### Interleaved execution of several monitor loops

To reason about mutual exclusion system-wide we give a small-step semantics of
`n` concurrent monitor loops sharing the single `monitoringMutex`.  A thread's
program counter walks the body of `monitorIteration false`:

  pc 0 : outside the critical section (about to call `Lock`, or sleeping)
  pc 1 : executing `service.EvaluateHealth()` (the Evaluator call)
  pc 2 : executing `metric.PublishMetricsForService`
  pc 3 : executing `UpdateServiceStatuses`
  pc 4 : executing the log statement
  pc 5 : executing `HandleAlerting`, after which `Unlock` runs and the
         thread returns to pc 0 (sleeping until the next iteration).

The mutex is modelled by its owner: `Lock` succeeds only when no thread owns
it, `Unlock` clears ownership. -/

structure WatchdogState (n : Nat) where
  pc : Fin n → Nat
  owner : Option (Fin n)

/-- The program counter value at which a thread is running the Evaluator. -/
def evalPC : Nat := 1

/-- The last program counter inside the critical section (`HandleAlerting`). -/
def lastPC : Nat := 5

/-- Small-step transition of the interleaved monitor loops with the
monitoring lock enabled. -/
inductive WatchdogStep {n : Nat} : WatchdogState n → WatchdogState n → Prop
  | acquire {s : WatchdogState n} (i : Fin n)
      (hpc : s.pc i = 0) (hfree : s.owner = none) :
      WatchdogStep s ⟨Function.update s.pc i 1, some i⟩
  | advance {s : WatchdogState n} (i : Fin n)
      (hlo : 1 ≤ s.pc i) (hhi : s.pc i < lastPC) :
      WatchdogStep s ⟨Function.update s.pc i (s.pc i + 1), s.owner⟩
  | release {s : WatchdogState n} (i : Fin n)
      (hpc : s.pc i = lastPC) :
      WatchdogStep s ⟨Function.update s.pc i 0, none⟩

/-- The initial state: every loop is outside the critical section and the
mutex is free. -/
def watchdogInit (n : Nat) : WatchdogState n := ⟨fun _ => 0, none⟩

/-- States reachable from the initial state. -/
inductive WatchdogReachable {n : Nat} : WatchdogState n → Prop
  | init : WatchdogReachable (watchdogInit n)
  | step {s t : WatchdogState n} :
      WatchdogReachable s → WatchdogStep s t → WatchdogReachable t

/-- The mutex invariant: any thread inside the critical section owns the
mutex. -/
def LockInv {n : Nat} (s : WatchdogState n) : Prop :=
  ∀ i : Fin n, 1 ≤ s.pc i → s.pc i ≤ lastPC ∧ s.owner = some i

/-! ## Watchdog: `Monitor` startup staggering

`watchdog.Monitor` iterates over `cfg.Services` and, for each one, first
sleeps `1111 * time.Millisecond` and then runs `go monitor(service)`.
We embed it as the list of (launch instant in milliseconds, service) pairs
produced when starting at instant `now`. -/

structure Service where
  group : String
  name : String
  interval : Nat
  deriving DecidableEq, Repr

/-- `watchdog.Monitor`: for each configured service in order, wait 1111 ms,
then launch that service's monitoring goroutine. -/
def MonitorSchedule : List Service → Nat → List (Nat × Service)
  | [], _ => []
  | svc :: rest, now => (now + 1111, svc) :: MonitorSchedule rest (now + 1111)

/-! ## Controller: the response cache and the statuses handlers
(src/controller/controller.go)

Bytes are modelled as lists of naturals, time in milliseconds.  The cache
(the external `gocache` instance) is modelled as an association list from
keys to entries carrying an absolute expiry instant; `Set` prepends (the
newest binding shadows older ones, as in a map), and `Get` is the lazy
expiry check: an entry is only returned while `now < expiry`. -/

abbrev Bytes := List Nat

/-- A string as its (codepoint) bytes, to model Go `[]byte(...)` bodies. -/
def strBytes (s : String) : Bytes := s.toList.map Char.toNat

/-- One second, in milliseconds (`time.Second`). -/
def second : Nat := 1000

/-- `cacheTTL = 10 * time.Second` (src/controller/controller.go). -/
def cacheTTL : Nat := 10 * second

structure CacheEntry where
  data : Bytes
  expiry : Nat
  deriving DecidableEq, Repr

abbrev Cache := List (String × CacheEntry)

/-- `cache.Get`: the entry for `key`, unless absent or already expired. -/
def cacheGet (c : Cache) (key : String) (now : Nat) : Option Bytes :=
  match c.lookup key with
  | some e => if now < e.expiry then some e.data else none
  | none => none

/-- `cache.SetWithTTL`: bind `key` to `v`, expiring `ttl` after `now`. -/
def cacheSetWithTTL (c : Cache) (key : String) (v : Bytes) (ttl now : Nat) :
    Cache :=
  (key, ⟨v, now + ttl⟩) :: c

/-- The plain cache key `fmt.Sprintf("service-status-%d-%d", page, pageSize)`. -/
def statusKey (page pageSize : Nat) : String :=
  "service-status-" ++ toString page ++ "-" ++ toString pageSize

/-- The gzip cache key `fmt.Sprintf("service-status-%d-%d-gzipped", ...)`. -/
def statusKeyGzipped (page pageSize : Nat) : String :=
  statusKey page pageSize ++ "-gzipped"

/-- What a handler writes back: status code, body, and the headers it set. -/
structure Response where
  status : Nat
  body : Bytes
  contentEncodingGzip : Bool
  contentTypeJSON : Bool
  deriving DecidableEq, Repr

/-- `serviceStatusesHandler`.  The store is an opaque value `store : σ`
threaded through unchanged; `marshalAll store page pageSize` is the combined
outcome of `storage.Get().GetAllServiceStatusesWithResultPagination` followed
by `json.Marshal`; `gzipCompress` models the gzip writer.  `gzipped` is
whether the request's Accept-Encoding contains "gzip". -/
def serviceStatusesHandler {σ : Type} (store : σ)
    (marshalAll : σ → Nat → Nat → Except String Bytes)
    (gzipCompress : Bytes → Bytes)
    (cache : Cache) (page pageSize : Nat) (gzipped : Bool) (now : Nat) :
    Response × Cache × σ :=
  let key := statusKey page pageSize
  let gzKey := statusKeyGzipped page pageSize
  let cached := if gzipped then cacheGet cache gzKey now else cacheGet cache key now
  match cached with
  | some v => (⟨200, v, gzipped, true⟩, cache, store)
  | none =>
    match marshalAll store page pageSize with
    | Except.error _ =>
        (⟨500, strBytes "Unable to marshal object to JSON", gzipped, false⟩,
         cache, store)
    | Except.ok data =>
        let gzippedData := gzipCompress data
        let c1 := cacheSetWithTTL cache key data cacheTTL now
        let c2 := cacheSetWithTTL c1 gzKey gzippedData cacheTTL now
        (⟨200, if gzipped then gzippedData else data, gzipped, true⟩, c2, store)

/-- Modelled from the spec: the store's `GetServiceStatusByKey` returns the
full aggregate for the key, "or a not-found indicator if the key is unknown"
(the memory store implementation behind the `Store` interface of
src/storage/store/store.go is not part of the excerpt; the store is an
association list from keys to statuses of an opaque type `τ`). -/
def GetServiceStatusByKey {τ : Type} (store : List (String × τ))
    (key : String) : Option τ :=
  store.lookup key

/-- `serviceStatusHandler`: the single-service read endpoint.
`marshalStatus st page pageSize` is the outcome of `json.Marshal` on the
map built from `st.WithResultPagination(page, pageSize)`, events and uptime. -/
def serviceStatusHandler {τ : Type} (store : List (String × τ)) (key : String)
    (page pageSize : Nat)
    (marshalStatus : τ → Nat → Nat → Except String Bytes) : Response :=
  match GetServiceStatusByKey store key with
  | none => ⟨404, strBytes "not found", false, false⟩
  | some st =>
    match marshalStatus st page pageSize with
    | Except.error _ =>
        ⟨500, strBytes "unable to marshal object to JSON", false, false⟩
    | Except.ok out => ⟨200, out, false, false⟩

/-! ## Controller: two concurrent callers of `serviceStatusesHandler`

To examine cache-stampede behaviour we interleave two callers of the
statuses handler on the same `(page, pageSize)` key, both without gzip,
against a shared cache and a fixed store whose marshalled form is `data`
(with gzip compression `gz`).  Each caller performs two atomic phases,
exactly as the handler's code is structured:

  * `get`: read `cache.Get(key)` and remember the outcome;
  * `finish`: if the remembered outcome was a miss, marshal the store
    (one computation), `SetWithTTL` both keys, and respond with the data;
    if it was a hit, respond with the cached bytes.

`comps` counts how many marshalling computations occurred.  All get/set
phases happen within one TTL window, at instant 0. -/

inductive CallerId
  | A
  | B
  deriving DecidableEq, Repr

structure CallerState where
  observed : Option (Option Bytes)
  response : Option Response
  deriving DecidableEq, Repr

structure ConcState where
  cache : Cache
  comps : Nat
  a : CallerState
  b : CallerState
  deriving DecidableEq, Repr

/-- The state of one caller inside the combined state. -/
def callerOf (s : ConcState) : CallerId → CallerState
  | CallerId.A => s.a
  | CallerId.B => s.b

/-- Replace the state of one caller. -/
def setCaller (s : ConcState) : CallerId → CallerState → ConcState
  | CallerId.A, c => { s with a := c }
  | CallerId.B, c => { s with b := c }

inductive ConcAct
  | get (who : CallerId)
  | finish (who : CallerId)
  deriving DecidableEq, Repr

/-- The successful response both callers produce (no gzip requested). -/
def okResponse (data : Bytes) : Response := ⟨200, data, false, true⟩

/-- One atomic phase of one caller; an action out of phase is a no-op. -/
def concStep (page pageSize : Nat) (data gz : Bytes) (s : ConcState) :
    ConcAct → ConcState
  | ConcAct.get who =>
      match (callerOf s who).observed with
      | none =>
          setCaller s who
            ⟨some (cacheGet s.cache (statusKey page pageSize) 0),
             (callerOf s who).response⟩
      | some _ => s
  | ConcAct.finish who =>
      match (callerOf s who).observed, (callerOf s who).response with
      | some (some v), none =>
          setCaller s who ⟨some (some v), some ⟨200, v, false, true⟩⟩
      | some none, none =>
          let c1 := cacheSetWithTTL s.cache (statusKey page pageSize) data
            cacheTTL 0
          let c2 := cacheSetWithTTL c1 (statusKeyGzipped page pageSize) gz
            cacheTTL 0
          setCaller { s with cache := c2, comps := s.comps + 1 } who
            ⟨some none, some (okResponse data)⟩
      | _, _ => s

/-- Run a schedule of interleaved caller phases from an empty cache. -/
def concRun (page pageSize : Nat) (data gz : Bytes)
    (sched : List ConcAct) : ConcState :=
  sched.foldl (concStep page pageSize data gz) ⟨[], 0, ⟨none, none⟩, ⟨none, none⟩⟩

/-- Whether a caller has performed the marshalling computation: it observed
a miss and has responded. -/
def didCompute (s : ConcState) (who : CallerId) : Prop :=
  (callerOf s who).observed = some none ∧ (callerOf s who).response.isSome

instance (s : ConcState) (who : CallerId) : Decidable (didCompute s who) := by
  unfold didCompute
  infer_instance

/-! ## Client: `GetHTTPClient` and `Ping` (src/client/client.go) -/

structure TLSConfig where
  insecureSkipVerify : Bool
  deriving DecidableEq, Repr

structure Transport where
  maxIdleConns : Nat
  maxIdleConnsPerHost : Nat
  tlsClientConfig : Option TLSConfig
  deriving DecidableEq, Repr

structure HTTPClient where
  timeout : Nat
  transport : Transport
  deriving DecidableEq, Repr

/-- The two package-level client singletons (`secureHTTPClient`,
`insecureHTTPClient`), each `nil` until first built. -/
structure ClientState where
  secureHTTPClient : Option HTTPClient
  insecureHTTPClient : Option HTTPClient
  deriving DecidableEq, Repr

def initialClientState : ClientState := ⟨none, none⟩

/-- The client built in the `insecure` branch: TLS verification skipped. -/
def mkInsecureClient (httpTimeout : Nat) : HTTPClient :=
  ⟨httpTimeout, ⟨100, 20, some ⟨true⟩⟩⟩

/-- The client built in the secure branch: no TLS config override. -/
def mkSecureClient (httpTimeout : Nat) : HTTPClient :=
  ⟨httpTimeout, ⟨100, 20, none⟩⟩

/-- `client.GetHTTPClient`: build the per-flag singleton on first use,
return the cached one afterwards.  `httpTimeout` is the package variable of
the same name. -/
def GetHTTPClient (insecure : Bool) (httpTimeout : Nat) (s : ClientState) :
    HTTPClient × ClientState :=
  if insecure then
    match s.insecureHTTPClient with
    | some c => (c, s)
    | none =>
        let c := mkInsecureClient httpTimeout
        (c, { s with insecureHTTPClient := some c })
  else
    match s.secureHTTPClient with
    | some c => (c, s)
    | none =>
        let c := mkSecureClient httpTimeout
        (c, { s with secureHTTPClient := some c })

/-- Whether a client is configured to skip TLS certificate verification. -/
def clientSkipsTLSVerify (c : HTTPClient) : Bool :=
  match c.transport.tlsClientConfig with
  | some t => t.insecureSkipVerify
  | none => false

/-- The per-flag singleton slot read by `GetHTTPClient`. -/
def clientSlot (insecure : Bool) (s : ClientState) : Option HTTPClient :=
  if insecure then s.insecureHTTPClient else s.secureHTTPClient

/-- Run a sequence of `GetHTTPClient` calls (flag, timeout) for their
effect on the singletons. -/
def runClientCalls : List (Bool × Nat) → ClientState → ClientState
  | [], s => s
  | (flag, tmo) :: rest, s => runClientCalls rest (GetHTTPClient flag tmo s).2

/-- `pingTimeout = 5 * time.Second` (src/client/client.go). -/
def pingTimeout : Nat := 5 * second

/-- The outcome of `pinger.Statistics()`: packet-loss percentage and the
maximum round-trip time. -/
structure PingStats where
  packetLoss : ℚ
  maxRtt : Nat
  deriving DecidableEq

/-- The environment `client.Ping` runs against: whether `ping.NewPinger`
succeeds, whether `pinger.Run()` succeeds, and what `pinger.Statistics()`
returns (`none` models a nil statistics pointer, which the code checks
for explicitly). -/
structure PingEnv where
  createOk : Bool
  runOk : Bool
  stats : Option PingStats
  deriving DecidableEq

/-- `client.Ping` (the pinger's `Timeout` field is set to `pingTimeout`
before the run, so the 100%-loss branch returns `pingTimeout`). -/
def Ping (env : PingEnv) : Bool × Nat :=
  if !env.createOk then (false, 0)
  else if !env.runOk then (false, 0)
  else
    match env.stats with
    | some st =>
        if st.packetLoss = 100 then (false, pingTimeout)
        else (true, st.maxRtt)
    | none => (true, 0)

/-- Invariant of the two-caller interleaving: responses are only ever the
shared 200 answer, observations come from the shared cache, the plain key
maps (if at all) to the computed bytes, `comps` counts exactly the callers
that computed, and cached data or an observed hit implies somebody
computed. -/
def ConcInv (page pageSize : Nat) (data : Bytes) (s : ConcState) : Prop :=
  (∀ w, (callerOf s w).response = none ∨
        (callerOf s w).response = some (okResponse data)) ∧
  (∀ w, (callerOf s w).observed = none ∨
        (callerOf s w).observed = some none ∨
        (callerOf s w).observed = some (some data)) ∧
  (∀ w, (callerOf s w).response.isSome → (callerOf s w).observed ≠ none) ∧
  (cacheGet s.cache (statusKey page pageSize) 0 = none ∨
   cacheGet s.cache (statusKey page pageSize) 0 = some data) ∧
  (s.comps = (if didCompute s CallerId.A then 1 else 0)
           + (if didCompute s CallerId.B then 1 else 0)) ∧
  (cacheGet s.cache (statusKey page pageSize) 0 = some data →
    didCompute s CallerId.A ∨ didCompute s CallerId.B) ∧
  (∀ w, (callerOf s w).observed = some (some data) →
    didCompute s CallerId.A ∨ didCompute s CallerId.B)

/-- Invariant of the client singletons: whatever is cached in a slot has
the TLS configuration its flag dictates. -/
def ClientInv (s : ClientState) : Prop :=
  (∀ c, s.insecureHTTPClient = some c → clientSkipsTLSVerify c = true) ∧
  (∀ c, s.secureHTTPClient = some c → clientSkipsTLSVerify c = false)

theorem lockInv_init (n : Nat) : LockInv (watchdogInit n) := by
  intro i h
  simp [watchdogInit] at h

theorem lockInv_step {n : Nat} {s t : WatchdogState n}
    (hinv : LockInv s) (hstep : WatchdogStep s t) : LockInv t := by
  cases hstep with
  | acquire i hpc hfree =>
      intro j hj
      by_cases hij : j = i
      · subst hij
        simp [Function.update_same, lastPC]
      · simp only [Function.update_noteq hij] at hj ⊢
        rcases hinv j hj with ⟨_, hown⟩
        rw [hown] at hfree
        exact absurd hfree (by simp)
  | advance i hlo hhi =>
      intro j hj
      by_cases hij : j = i
      · subst hij
        simp only [Function.update_same]
        rcases hinv j hlo with ⟨_, hown⟩
        exact ⟨by omega, hown⟩
      · simp only [Function.update_noteq hij] at hj ⊢
        exact hinv j hj
  | release i hpc =>
      intro j hj
      by_cases hij : j = i
      · subst hij
        simp [Function.update_same] at hj
      · simp only [Function.update_noteq hij] at hj ⊢
        rcases hinv j hj with ⟨hle, hown⟩
        rcases hinv i (by omega) with ⟨_, hown2⟩
        rw [hown] at hown2
        exact absurd (Option.some.inj hown2) hij

theorem lockInv_reachable {n : Nat} {s : WatchdogState n}
    (h : WatchdogReachable s) : LockInv s := by
  induction h with
  | init => exact lockInv_init n
  | step _ hstep ih => exact lockInv_step ih hstep

theorem monitorSchedule_length (svcs : List Service) (t : Nat) :
    (MonitorSchedule svcs t).length = svcs.length := by
  induction svcs generalizing t with
  | nil => rfl
  | cons s rest ih => simp [MonitorSchedule, ih]

theorem monitorSchedule_get_time (svcs : List Service) (t i : Nat)
    (h : i < svcs.length) :
    ((MonitorSchedule svcs t).get
      ⟨i, by rw [monitorSchedule_length]; exact h⟩).1 = t + (i + 1) * 1111 := by
  induction svcs generalizing t i with
  | nil => exact absurd h (by simp)
  | cons s rest ih =>
      cases i with
      | zero => simp [MonitorSchedule]
      | succ k =>
          have hk : k < rest.length := by simpa using h
          have := ih (t + 1111) k hk
          simp only [MonitorSchedule, List.get_cons_succ] at *
          rw [this]
          ring

theorem monitorSchedule_map_snd (svcs : List Service) (t : Nat) :
    (MonitorSchedule svcs t).map Prod.snd = svcs := by
  induction svcs generalizing t with
  | nil => rfl
  | cons s rest ih => simp [MonitorSchedule, ih]

theorem statusKey_ne_gzipped (page pageSize : Nat) :
    statusKey page pageSize ≠ statusKeyGzipped page pageSize := by
  intro h
  have h2 := congrArg String.length h
  rw [statusKeyGzipped, String.length_append] at h2
  have h3 : ("-gzipped" : String).length = 8 := rfl
  omega

theorem lookup_eq_none_of_not_mem_keys {τ : Type} (store : List (String × τ))
    (key : String) (h : key ∉ store.map Prod.fst) : store.lookup key = none := by
  induction store with
  | nil => rfl
  | cons p rest ih =>
      obtain ⟨k, v⟩ := p
      simp only [List.map_cons, List.mem_cons, not_or] at h
      rw [List.lookup_cons]
      simp only [beq_false_of_ne h.1]
      exact ih h.2

/-- `cache.Get` skips an entry whose key differs. -/
theorem cacheGet_cons_ne (k : String) (e : CacheEntry) (c : Cache)
    (key : String) (now : Nat) (h : key ≠ k) :
    cacheGet ((k, e) :: c) key now = cacheGet c key now := by
  simp [cacheGet, List.lookup_cons, beq_false_of_ne h]

/-- `cache.Get` finds the newest entry for its key, while unexpired. -/
theorem cacheGet_cons_self (k : String) (e : CacheEntry) (c : Cache)
    (now : Nat) :
    cacheGet ((k, e) :: c) k now
      = if now < e.expiry then some e.data else none := by
  simp [cacheGet, List.lookup_cons]

/-- C3: in every iteration of the monitoring loop, the Result produced by
`EvaluateHealth` flows to metrics publication, then to
`UpdateServiceStatuses` (`ResultStore.Insert`), then to `HandleAlerting`,
in exactly that order, whatever the lock toggle. -/
theorem monitor_forwards_result_in_order (b : Bool) :
    (monitorIteration b).indexOf MonEvent.evaluate <
      (monitorIteration b).indexOf MonEvent.publishMetrics ∧
    (monitorIteration b).indexOf MonEvent.publishMetrics <
      (monitorIteration b).indexOf MonEvent.insertResult ∧
    (monitorIteration b).indexOf MonEvent.insertResult <
      (monitorIteration b).indexOf MonEvent.handleAlerting ∧
    MonEvent.publishMetrics ∈ monitorIteration b ∧
    MonEvent.insertResult ∈ monitorIteration b ∧
    MonEvent.handleAlerting ∈ monitorIteration b := by
  cases b <;> decide

/-- C2: with `DisableMonitoringLock = false` an iteration acquires the
process-wide `monitoringMutex` before `EvaluateHealth` and releases it only
after `HandleAlerting`, and in the interleaved semantics of any number of
monitor loops at most one loop executes the Evaluator at any instant; with
`DisableMonitoringLock = true` an iteration never touches the lock. -/
theorem monitoringLock_serializes_evaluations :
    ((monitorIteration false).indexOf MonEvent.lockAcq <
        (monitorIteration false).indexOf MonEvent.evaluate ∧
      (monitorIteration false).indexOf MonEvent.handleAlerting <
        (monitorIteration false).indexOf MonEvent.lockRel ∧
      MonEvent.lockAcq ∈ monitorIteration false ∧
      MonEvent.lockRel ∈ monitorIteration false) ∧
    (MonEvent.lockAcq ∉ monitorIteration true ∧
      MonEvent.lockRel ∉ monitorIteration true) ∧
    (∀ (n : Nat) (s : WatchdogState n), WatchdogReachable s →
      ∀ i j : Fin n, s.pc i = evalPC → s.pc j = evalPC → i = j) := by
  refine ⟨by decide, by decide, ?_⟩
  intro n s hs i j hi hj
  have hinv := lockInv_reachable hs
  have h1 : 1 ≤ s.pc i := by rw [hi]; exact Nat.le.refl
  have h2 : 1 ≤ s.pc j := by rw [hj]; exact Nat.le.refl
  have hoi := (hinv i h1).2
  have hoj := (hinv j h2).2
  rw [hoi] at hoj
  exact Option.some.inj hoj

/-- Witness for `monitoringLock_serializes_evaluations`, at the state of
two monitor loops where the first has just acquired the lock and entered
the Evaluator. -/
theorem monitoringLock_serializes_evaluations_witness :
    ((0 : Fin 2) = 0) ∧ MonEvent.lockAcq ∉ monitorIteration true := by
  constructor
  · exact monitoringLock_serializes_evaluations.2.2 2
      ⟨Function.update (fun _ => 0) 0 1, some 0⟩
      (WatchdogReachable.step WatchdogReachable.init
        (WatchdogStep.acquire 0 rfl rfl))
      0 0 (by simp [evalPC]) (by simp [evalPC])
  · exact monitoringLock_serializes_evaluations.2.1.1

/-- C7: `Monitor` launches one polling task per configured service, the
i-th launch happening after the fixed 1111 ms delay at instant
`t + (i+1)*1111`, so no two tasks are launched at the same instant. -/
theorem Monitor_staggers_task_launches (svcs : List Service) (t i j : Nat)
    (hi : i < svcs.length) (hj : j < svcs.length) (hne : i ≠ j) :
    (MonitorSchedule svcs t).map Prod.snd = svcs ∧
    ((MonitorSchedule svcs t).get
        ⟨i, by rw [monitorSchedule_length]; exact hi⟩).1 = t + (i + 1) * 1111 ∧
    ((MonitorSchedule svcs t).get
        ⟨i, by rw [monitorSchedule_length]; exact hi⟩).1
      ≠ ((MonitorSchedule svcs t).get
        ⟨j, by rw [monitorSchedule_length]; exact hj⟩).1 := by
  refine ⟨monitorSchedule_map_snd svcs t,
    monitorSchedule_get_time svcs t i hi, ?_⟩
  rw [monitorSchedule_get_time svcs t i hi,
    monitorSchedule_get_time svcs t j hj]
  omega

/-- Witness for `Monitor_staggers_task_launches` on two concrete services:
launch instants 1111 and 2222. -/
theorem Monitor_staggers_task_launches_witness :
    (MonitorSchedule [⟨"g", "a", 60⟩, ⟨"g", "b", 60⟩] 0).map Prod.snd
      = [⟨"g", "a", 60⟩, ⟨"g", "b", 60⟩] ∧
    ((MonitorSchedule [⟨"g", "a", 60⟩, ⟨"g", "b", 60⟩] 0).get
        ⟨0, by decide⟩).1 = 0 + (0 + 1) * 1111 ∧
    ((MonitorSchedule [⟨"g", "a", 60⟩, ⟨"g", "b", 60⟩] 0).get
        ⟨0, by decide⟩).1
      ≠ ((MonitorSchedule [⟨"g", "a", 60⟩, ⟨"g", "b", 60⟩] 0).get
        ⟨1, by decide⟩).1 :=
  Monitor_staggers_task_launches [⟨"g", "a", 60⟩, ⟨"g", "b", 60⟩] 0 0 1
    (by decide) (by decide) (by decide)

/-- On a miss with successful marshalling the statuses handler responds 200
and prepends both freshly filled entries to the cache. -/
theorem statusesHandler_insert_path {σ : Type} (store : σ)
    (marshalAll : σ → Nat → Nat → Except String Bytes)
    (gzipCompress : Bytes → Bytes) (cache : Cache)
    (page pageSize : Nat) (gzipped : Bool) (now : Nat) (data : Bytes)
    (hmiss : (if gzipped then cacheGet cache (statusKeyGzipped page pageSize) now
              else cacheGet cache (statusKey page pageSize) now) = none)
    (hok : marshalAll store page pageSize = Except.ok data) :
    serviceStatusesHandler store marshalAll gzipCompress cache page pageSize
        gzipped now
      = (⟨200, if gzipped then gzipCompress data else data, gzipped, true⟩,
         (statusKeyGzipped page pageSize,
           ⟨gzipCompress data, now + cacheTTL⟩) ::
         (statusKey page pageSize, ⟨data, now + cacheTTL⟩) :: cache,
         store) := by
  unfold serviceStatusesHandler cacheSetWithTTL
  simp only [hmiss, hok]

/-- On a hit the statuses handler responds 200 with the cached bytes and
changes nothing. -/
theorem statusesHandler_hit_path {σ : Type} (store : σ)
    (marshalAll : σ → Nat → Nat → Except String Bytes)
    (gzipCompress : Bytes → Bytes) (cache : Cache)
    (page pageSize : Nat) (gzipped : Bool) (now : Nat) (v : Bytes)
    (hhit : (if gzipped then cacheGet cache (statusKeyGzipped page pageSize) now
             else cacheGet cache (statusKey page pageSize) now) = some v) :
    serviceStatusesHandler store marshalAll gzipCompress cache page pageSize
        gzipped now
      = (⟨200, v, gzipped, true⟩, cache, store) := by
  unfold serviceStatusesHandler
  simp only [hhit]

/-- C4: a key that does not name any stored service makes
`GetServiceStatusByKey` return the not-found indicator, upon which the
single-service endpoint responds 404 with body "not found". -/
theorem serviceStatusHandler_not_found {τ : Type} (store : List (String × τ))
    (key : String) (page pageSize : Nat)
    (marshalStatus : τ → Nat → Nat → Except String Bytes)
    (h : key ∉ store.map Prod.fst) :
    GetServiceStatusByKey store key = none ∧
    serviceStatusHandler store key page pageSize marshalStatus
      = ⟨404, strBytes "not found", false, false⟩ := by
  have hnone : store.lookup key = none :=
    lookup_eq_none_of_not_mem_keys store key h
  refine ⟨hnone, ?_⟩
  unfold serviceStatusHandler GetServiceStatusByKey
  simp only [hnone]

/-- Witness for `serviceStatusHandler_not_found` on a one-service store and
an unknown key. -/
theorem serviceStatusHandler_not_found_witness :
    GetServiceStatusByKey ([("g_a", 0)] : List (String × Nat)) "nope"
      = none ∧
    serviceStatusHandler ([("g_a", 0)] : List (String × Nat)) "nope" 1 20
        (fun _ _ _ => Except.ok [])
      = ⟨404, strBytes "not found", false, false⟩ :=
  serviceStatusHandler_not_found [("g_a", 0)] "nope" 1 20
    (fun _ _ _ => Except.ok []) (by decide)

/-- C5: when `json.Marshal` fails on a cache miss, the statuses handler
responds 500 to that request only: it caches nothing and the cache and the
store come back exactly as they were. -/
theorem serviceStatusesHandler_marshal_failure {σ : Type} (store : σ)
    (marshalAll : σ → Nat → Nat → Except String Bytes)
    (gzipCompress : Bytes → Bytes) (cache : Cache)
    (page pageSize : Nat) (gzipped : Bool) (now : Nat) (msg : String)
    (hmiss : (if gzipped then cacheGet cache (statusKeyGzipped page pageSize) now
              else cacheGet cache (statusKey page pageSize) now) = none)
    (herr : marshalAll store page pageSize = Except.error msg) :
    serviceStatusesHandler store marshalAll gzipCompress cache page pageSize
        gzipped now
      = (⟨500, strBytes "Unable to marshal object to JSON", gzipped, false⟩,
         cache, store) := by
  unfold serviceStatusesHandler
  simp only [hmiss, herr]

/-- Witness for `serviceStatusesHandler_marshal_failure` on an empty cache
and an always-failing marshaller. -/
theorem serviceStatusesHandler_marshal_failure_witness :
    serviceStatusesHandler () (fun _ _ _ => Except.error "boom") id [] 1 20
        false 0
      = (⟨500, strBytes "Unable to marshal object to JSON", false, false⟩,
         [], ()) :=
  serviceStatusesHandler_marshal_failure () (fun _ _ _ => Except.error "boom")
    id [] 1 20 false 0 "boom" (by decide) rfl

/-- C6: on the insert path both cache entries carry the fixed TTL
`cacheTTL`, which is 10 seconds, expiring at `now + cacheTTL`; from that
instant on both keys read back as absent. -/
theorem serviceStatusesHandler_fixed_ttl {σ : Type} (store : σ)
    (marshalAll : σ → Nat → Nat → Except String Bytes)
    (gzipCompress : Bytes → Bytes) (cache : Cache)
    (page pageSize : Nat) (gzipped : Bool) (now : Nat) (data : Bytes)
    (hmiss : (if gzipped then cacheGet cache (statusKeyGzipped page pageSize) now
              else cacheGet cache (statusKey page pageSize) now) = none)
    (hok : marshalAll store page pageSize = Except.ok data) :
    cacheTTL = 10 * second ∧
    (serviceStatusesHandler store marshalAll gzipCompress cache page pageSize
        gzipped now).2.1
      = (statusKeyGzipped page pageSize,
          ⟨gzipCompress data, now + cacheTTL⟩) ::
        (statusKey page pageSize, ⟨data, now + cacheTTL⟩) :: cache ∧
    (∀ t, now + cacheTTL ≤ t →
      cacheGet (serviceStatusesHandler store marshalAll gzipCompress cache
          page pageSize gzipped now).2.1 (statusKey page pageSize) t = none ∧
      cacheGet (serviceStatusesHandler store marshalAll gzipCompress cache
          page pageSize gzipped now).2.1 (statusKeyGzipped page pageSize) t
        = none) := by
  have hc := statusesHandler_insert_path store marshalAll gzipCompress cache
    page pageSize gzipped now data hmiss hok
  refine ⟨rfl, by rw [hc], ?_⟩
  intro t ht
  rw [hc]
  constructor
  · rw [cacheGet_cons_ne _ _ _ _ _ (statusKey_ne_gzipped page pageSize),
      cacheGet_cons_self]
    exact if_neg (show ¬ t < now + cacheTTL by omega)
  · rw [cacheGet_cons_self]
    exact if_neg (show ¬ t < now + cacheTTL by omega)

/-- Witness for `serviceStatusesHandler_fixed_ttl`: a concrete insertion at
instant 0 whose entries are gone at instant 10000 (= 10 s). -/
theorem serviceStatusesHandler_fixed_ttl_witness :
    cacheTTL = 10 * second ∧
    cacheGet (serviceStatusesHandler () (fun _ _ _ => Except.ok [7])
        (fun l => 9 :: l) [] 1 20 false 0).2.1 (statusKey 1 20) 10000
      = none := by
  have h := serviceStatusesHandler_fixed_ttl () (fun _ _ _ => Except.ok [7])
    (fun l => 9 :: l) [] 1 20 false 0 [7] (by decide) rfl
  exact ⟨h.1, (h.2.2 10000 (by decide)).1⟩

/-- C8: a miss with successful marshalling caches the plain bytes and the
gzip-compressed bytes under their two keys in the same pass, whatever
encoding the triggering request asked for; until the TTL elapses a request
for either encoding is a cache hit served from the cache, unchanged. -/
theorem serviceStatusesHandler_caches_both_encodings {σ : Type} (store : σ)
    (marshalAll : σ → Nat → Nat → Except String Bytes)
    (gzipCompress : Bytes → Bytes) (cache : Cache)
    (page pageSize : Nat) (gzipped : Bool) (now now2 : Nat) (data : Bytes)
    (hmiss : (if gzipped then cacheGet cache (statusKeyGzipped page pageSize) now
              else cacheGet cache (statusKey page pageSize) now) = none)
    (hok : marshalAll store page pageSize = Except.ok data)
    (hfresh : now2 < now + cacheTTL) :
    cacheGet (serviceStatusesHandler store marshalAll gzipCompress cache
        page pageSize gzipped now).2.1 (statusKey page pageSize) now2
      = some data ∧
    cacheGet (serviceStatusesHandler store marshalAll gzipCompress cache
        page pageSize gzipped now).2.1 (statusKeyGzipped page pageSize) now2
      = some (gzipCompress data) ∧
    serviceStatusesHandler store marshalAll gzipCompress
        (serviceStatusesHandler store marshalAll gzipCompress cache
          page pageSize gzipped now).2.1 page pageSize false now2
      = (⟨200, data, false, true⟩,
         (serviceStatusesHandler store marshalAll gzipCompress cache
           page pageSize gzipped now).2.1, store) ∧
    serviceStatusesHandler store marshalAll gzipCompress
        (serviceStatusesHandler store marshalAll gzipCompress cache
          page pageSize gzipped now).2.1 page pageSize true now2
      = (⟨200, gzipCompress data, true, true⟩,
         (serviceStatusesHandler store marshalAll gzipCompress cache
           page pageSize gzipped now).2.1, store) := by
  have hc := statusesHandler_insert_path store marshalAll gzipCompress cache
    page pageSize gzipped now data hmiss hok
  have hplain : cacheGet (serviceStatusesHandler store marshalAll gzipCompress
      cache page pageSize gzipped now).2.1 (statusKey page pageSize) now2
      = some data := by
    rw [hc]
    rw [cacheGet_cons_ne _ _ _ _ _ (statusKey_ne_gzipped page pageSize),
      cacheGet_cons_self]
    exact if_pos hfresh
  have hgz : cacheGet (serviceStatusesHandler store marshalAll gzipCompress
      cache page pageSize gzipped now).2.1 (statusKeyGzipped page pageSize)
      now2 = some (gzipCompress data) := by
    rw [hc, cacheGet_cons_self]
    exact if_pos hfresh
  refine ⟨hplain, hgz, ?_, ?_⟩
  · exact statusesHandler_hit_path store marshalAll gzipCompress _ page
      pageSize false now2 data (by simpa using hplain)
  · exact statusesHandler_hit_path store marshalAll gzipCompress _ page
      pageSize true now2 (gzipCompress data) (by simpa using hgz)

/-- Witness for `serviceStatusesHandler_caches_both_encodings`: a plain
(non-gzip) request fills the cache and a gzip request 5 s later hits it. -/
theorem serviceStatusesHandler_caches_both_encodings_witness :
    cacheGet (serviceStatusesHandler () (fun _ _ _ => Except.ok [7])
        (fun l => 9 :: l) [] 1 20 false 0).2.1 (statusKey 1 20) 5000
      = some [7] ∧
    serviceStatusesHandler () (fun _ _ _ => Except.ok [7]) (fun l => 9 :: l)
        (serviceStatusesHandler () (fun _ _ _ => Except.ok [7])
          (fun l => 9 :: l) [] 1 20 false 0).2.1 1 20 true 5000
      = (⟨200, 9 :: [7], true, true⟩,
         (serviceStatusesHandler () (fun _ _ _ => Except.ok [7])
           (fun l => 9 :: l) [] 1 20 false 0).2.1, ()) := by
  have h := serviceStatusesHandler_caches_both_encodings ()
    (fun _ _ _ => Except.ok [7]) (fun l => 9 :: l) [] 1 20 false 0 5000 [7]
    (by decide) rfl (by decide)
  exact ⟨h.1, h.2.2.2⟩

theorem clientInv_initial : ClientInv initialClientState := by
  constructor <;> intro c h <;> simp [initialClientState] at h

theorem clientInv_get (flag : Bool) (tmo : Nat) (s : ClientState)
    (h : ClientInv s) : ClientInv (GetHTTPClient flag tmo s).2 := by
  obtain ⟨h1, h2⟩ := h
  cases flag with
  | false =>
      cases hs : s.secureHTTPClient with
      | some c =>
          simp only [GetHTTPClient, hs, Bool.false_eq_true, if_false]
          exact ⟨h1, h2⟩
      | none =>
          simp only [GetHTTPClient, hs, Bool.false_eq_true, if_false]
          refine ⟨fun c hc => h1 c hc, fun c hc => ?_⟩
          have hc2 : c = mkSecureClient tmo := by
            simpa using hc.symm
          subst hc2
          rfl
  | true =>
      cases hs : s.insecureHTTPClient with
      | some c =>
          simp only [GetHTTPClient, hs, if_true]
          exact ⟨h1, h2⟩
      | none =>
          simp only [GetHTTPClient, hs, if_true]
          refine ⟨fun c hc => ?_, fun c hc => h2 c hc⟩
          have hc2 : c = mkInsecureClient tmo := by
            simpa using hc.symm
          subst hc2
          rfl

theorem clientInv_run (calls : List (Bool × Nat)) (s : ClientState)
    (h : ClientInv s) : ClientInv (runClientCalls calls s) := by
  induction calls generalizing s with
  | nil => exact h
  | cons p rest ih =>
      obtain ⟨flag, tmo⟩ := p
      exact ih _ (clientInv_get flag tmo s h)

/-- After any call, the per-flag singleton holds the returned client. -/
theorem getHTTPClient_fills_slot (flag : Bool) (tmo : Nat) (s : ClientState) :
    clientSlot flag (GetHTTPClient flag tmo s).2
      = some (GetHTTPClient flag tmo s).1 := by
  cases flag with
  | false =>
      cases hs : s.secureHTTPClient <;>
        simp [GetHTTPClient, clientSlot, hs]
  | true =>
      cases hs : s.insecureHTTPClient <;>
        simp [GetHTTPClient, clientSlot, hs]

/-- A call whose flag's singleton is filled returns it and changes nothing. -/
theorem getHTTPClient_of_slot (flag : Bool) (tmo : Nat) (s : ClientState)
    (c : HTTPClient) (h : clientSlot flag s = some c) :
    GetHTTPClient flag tmo s = (c, s) := by
  cases flag with
  | false =>
      have hs : s.secureHTTPClient = some c := by simpa [clientSlot] using h
      simp [GetHTTPClient, hs]
  | true =>
      have hs : s.insecureHTTPClient = some c := by simpa [clientSlot] using h
      simp [GetHTTPClient, hs]

/-- A call with the other flag never touches this flag's singleton. -/
theorem getHTTPClient_other_slot (flag : Bool) (tmo : Nat) (s : ClientState) :
    clientSlot flag (GetHTTPClient (!flag) tmo s).2 = clientSlot flag s := by
  cases flag with
  | false =>
      cases hs : s.insecureHTTPClient <;>
        simp [GetHTTPClient, clientSlot, hs]
  | true =>
      cases hs : s.secureHTTPClient <;>
        simp [GetHTTPClient, clientSlot, hs]

/-- On an invariant state the returned client's TLS-skip setting matches
the flag. -/
theorem getHTTPClient_skips (flag : Bool) (tmo : Nat) (s : ClientState)
    (h : ClientInv s) : clientSkipsTLSVerify (GetHTTPClient flag tmo s).1 = flag := by
  obtain ⟨h1, h2⟩ := h
  cases flag with
  | false =>
      cases hs : s.secureHTTPClient with
      | some c => simpa [GetHTTPClient, hs] using h2 c hs
      | none => simp [GetHTTPClient, hs]; rfl
  | true =>
      cases hs : s.insecureHTTPClient with
      | some c => simpa [GetHTTPClient, hs] using h1 c hs
      | none => simp [GetHTTPClient, hs]; rfl

/-- C9: after any history of calls from the initial (nil, nil) singletons,
a `GetHTTPClient` call fills or keeps its flag's singleton, every further
call with the same flag returns exactly that client with the state
unchanged, a call with the other flag leaves this slot alone, and the
`insecure = true` client skips TLS certificate verification while the
`insecure = false` client does not. -/
theorem GetHTTPClient_memoized_per_flag (calls : List (Bool × Nat))
    (flag : Bool) (tmo tmo2 : Nat) :
    clientSlot flag
        (GetHTTPClient flag tmo (runClientCalls calls initialClientState)).2
      = some (GetHTTPClient flag tmo
          (runClientCalls calls initialClientState)).1 ∧
    GetHTTPClient flag tmo2
        (GetHTTPClient flag tmo (runClientCalls calls initialClientState)).2
      = ((GetHTTPClient flag tmo (runClientCalls calls initialClientState)).1,
         (GetHTTPClient flag tmo (runClientCalls calls initialClientState)).2) ∧
    clientSlot flag (GetHTTPClient (!flag) tmo2
        (GetHTTPClient flag tmo (runClientCalls calls initialClientState)).2).2
      = clientSlot flag
        (GetHTTPClient flag tmo (runClientCalls calls initialClientState)).2 ∧
    clientSkipsTLSVerify
        (GetHTTPClient flag tmo (runClientCalls calls initialClientState)).1
      = flag := by
  refine ⟨getHTTPClient_fills_slot flag tmo _, ?_, ?_, ?_⟩
  · exact getHTTPClient_of_slot flag tmo2 _ _ (getHTTPClient_fills_slot flag tmo _)
  · exact getHTTPClient_other_slot flag tmo2 _
  · exact getHTTPClient_skips flag tmo _
      (clientInv_run calls initialClientState clientInv_initial)

/-- C10 counterexample: with creation and run succeeding but a nil
statistics object, `Ping` returns `(true, 0)` — it reports success without
any statistics, hence without packet loss below 100%. -/
theorem Ping_nil_statistics_counterexample :
    Ping ⟨true, true, none⟩ = (true, 0) ∧
    ¬ ∃ st : PingStats, (PingEnv.mk true true none).stats = some st ∧
        st.packetLoss < 100 ∧ (Ping ⟨true, true, none⟩).2 = st.maxRtt := by
  refine ⟨rfl, ?_⟩
  rintro ⟨st, hst, -⟩
  exact Option.noConfusion hst

/-- C10 amended: `Ping` never raises; it returns `(false, 0)` when the
pinger cannot be created or its run fails, `(false, pingTimeout)` when
statistics exist with packet loss exactly 100, `(true, maxRtt)` when
statistics exist with packet loss other than 100, and `(true, 0)` when the
run succeeds but no statistics object is available. -/
theorem Ping_behavior (env : PingEnv) :
    (env.createOk = false → Ping env = (false, 0)) ∧
    (env.createOk = true → env.runOk = false → Ping env = (false, 0)) ∧
    (∀ st : PingStats, env.createOk = true → env.runOk = true →
      env.stats = some st →
      (st.packetLoss = 100 → Ping env = (false, pingTimeout)) ∧
      (st.packetLoss ≠ 100 → Ping env = (true, st.maxRtt))) ∧
    (env.createOk = true → env.runOk = true → env.stats = none →
      Ping env = (true, 0)) := by
  obtain ⟨co, ro, stats⟩ := env
  refine ⟨?_, ?_, ?_, ?_⟩
  · intro h
    subst h
    rfl
  · intro h1 h2
    subst h1
    subst h2
    rfl
  · intro st h1 h2 hst
    subst h1
    subst h2
    subst hst
    constructor
    · intro hl
      simp [Ping, hl]
    · intro hl
      simp [Ping, hl]
  · intro h1 h2 hst
    subst h1
    subst h2
    subst hst
    rfl

/-- Witness for `Ping_behavior` on the four concrete regimes. -/
theorem Ping_behavior_witness :
    Ping ⟨false, true, none⟩ = (false, 0) ∧
    Ping ⟨true, false, none⟩ = (false, 0) ∧
    Ping ⟨true, true, some ⟨100, 42⟩⟩ = (false, pingTimeout) ∧
    Ping ⟨true, true, some ⟨0, 42⟩⟩ = (true, 42) ∧
    Ping ⟨true, true, none⟩ = (true, 0) := by
  refine ⟨(Ping_behavior _).1 rfl, (Ping_behavior _).2.1 rfl rfl, ?_, ?_,
    (Ping_behavior _).2.2.2 rfl rfl rfl⟩
  · exact ((Ping_behavior _).2.2.1 ⟨100, 42⟩ rfl rfl rfl).1 rfl
  · exact ((Ping_behavior _).2.2.1 ⟨0, 42⟩ rfl rfl rfl).2 (by norm_num)

theorem concInv_init (page pageSize : Nat) (data : Bytes) :
    ConcInv page pageSize data ⟨[], 0, ⟨none, none⟩, ⟨none, none⟩⟩ := by
  refine ⟨?_, ?_, ?_, Or.inl rfl, ?_, ?_, ?_⟩
  · intro w
    cases w <;> exact Or.inl rfl
  · intro w
    cases w <;> exact Or.inl rfl
  · intro w
    cases w <;> simp [callerOf]
  · simp [didCompute, callerOf]
  · intro hc
    simp [cacheGet] at hc
  · intro w
    cases w <;> simp [callerOf]

theorem concInv_step (page pageSize : Nat) (data gz : Bytes) (s : ConcState)
    (h : ConcInv page pageSize data s) (act : ConcAct) :
    ConcInv page pageSize data (concStep page pageSize data gz s act) := by
  obtain ⟨hresp, hobs, hro, hcache, hcomps, hcw, how⟩ := h
  obtain ⟨cache, comps, a, b⟩ := s
  have hrA := hresp CallerId.A
  have hrB := hresp CallerId.B
  have hoA := hobs CallerId.A
  have hoB := hobs CallerId.B
  have hroA := hro CallerId.A
  have hroB := hro CallerId.B
  have howA := how CallerId.A
  have howB := how CallerId.B
  simp only [callerOf] at hrA hrB hoA hoB hroA hroB howA howB
  simp only [didCompute, callerOf] at hcomps hcw howA howB
  simp only at hcache
  clear hresp hobs hro how
  cases act with
  | get who =>
      cases who with
      | A =>
          rcases ho : a.observed with _ | obs
          · have hra : a.response = none := by
              rcases hrA with h0 | h0
              · exact h0
              · exact absurd ho (hroA (by simp [h0]))
            simp only [concStep, callerOf, ho, setCaller]
            refine ⟨?_, ?_, ?_, hcache, ?_, ?_, ?_⟩
            · intro w
              cases w
              · exact Or.inl (by simp [callerOf, hra])
              · exact hrB
            · intro w
              cases w
              · rcases hcache with hc | hc
                · exact Or.inr (Or.inl (by simp [callerOf, hc]))
                · exact Or.inr (Or.inr (by simp [callerOf, hc]))
              · exact hoB
            · intro w
              cases w
              · intro hsome
                simp [callerOf, hra] at hsome
              · exact hroB
            · simp only [didCompute, callerOf, hra]
              rw [hcomps]
              simp [ho]
            · intro hc
              rcases hcw hc with ⟨h1, _⟩ | h1
              · rw [ho] at h1
                exact absurd h1 (by simp)
              · exact Or.inr (by simpa [didCompute, callerOf] using h1)
            · intro w
              cases w
              · intro hobsd
                simp only [callerOf] at hobsd
                have hc : cacheGet cache (statusKey page pageSize) 0 = some data := by
                  simpa using hobsd
                rcases hcw hc with ⟨h1, _⟩ | h1
                · rw [ho] at h1
                  exact absurd h1 (by simp)
                · exact Or.inr (by simpa [didCompute, callerOf] using h1)
              · intro hobsd
                simp only [callerOf] at hobsd
                rcases howB hobsd with ⟨h1, _⟩ | h1
                · rw [ho] at h1
                  exact absurd h1 (by simp)
                · exact Or.inr (by simpa [didCompute, callerOf] using h1)
          · simp only [concStep, callerOf, ho]
            exact ⟨fun w => by cases w <;> [exact hrA; exact hrB],
              fun w => by cases w <;> [exact (ho ▸ hoA); exact hoB],
              fun w => by cases w <;> [exact hroA; exact hroB],
              hcache,
              by simpa [didCompute, callerOf] using hcomps,
              fun hc => by simpa [didCompute, callerOf] using hcw hc,
              fun w => by
                cases w
                · exact fun hh => by
                    simpa [didCompute, callerOf] using howA hh
                · exact fun hh => by
                    simpa [didCompute, callerOf] using howB hh⟩
      | B =>
          rcases ho : b.observed with _ | obs
          · have hrb : b.response = none := by
              rcases hrB with h0 | h0
              · exact h0
              · exact absurd ho (hroB (by simp [h0]))
            simp only [concStep, callerOf, ho, setCaller]
            refine ⟨?_, ?_, ?_, hcache, ?_, ?_, ?_⟩
            · intro w
              cases w
              · exact hrA
              · exact Or.inl (by simp [callerOf, hrb])
            · intro w
              cases w
              · exact hoA
              · rcases hcache with hc | hc
                · exact Or.inr (Or.inl (by simp [callerOf, hc]))
                · exact Or.inr (Or.inr (by simp [callerOf, hc]))
            · intro w
              cases w
              · exact hroA
              · intro hsome
                simp [callerOf, hrb] at hsome
            · simp only [didCompute, callerOf, hrb]
              rw [hcomps]
              simp [ho]
            · intro hc
              rcases hcw hc with h1 | ⟨h1, _⟩
              · exact Or.inl (by simpa [didCompute, callerOf] using h1)
              · rw [ho] at h1
                exact absurd h1 (by simp)
            · intro w
              cases w
              · intro hobsd
                simp only [callerOf] at hobsd
                rcases howA hobsd with h1 | ⟨h1, _⟩
                · exact Or.inl (by simpa [didCompute, callerOf] using h1)
                · rw [ho] at h1
                  exact absurd h1 (by simp)
              · intro hobsd
                simp only [callerOf] at hobsd
                have hc : cacheGet cache (statusKey page pageSize) 0 = some data := by
                  simpa using hobsd
                rcases hcw hc with h1 | ⟨h1, _⟩
                · exact Or.inl (by simpa [didCompute, callerOf] using h1)
                · rw [ho] at h1
                  exact absurd h1 (by simp)
          · simp only [concStep, callerOf, ho]
            exact ⟨fun w => by cases w <;> [exact hrA; exact hrB],
              fun w => by cases w <;> [exact hoA; exact (ho ▸ hoB)],
              fun w => by cases w <;> [exact hroA; exact hroB],
              hcache,
              by simpa [didCompute, callerOf] using hcomps,
              fun hc => by simpa [didCompute, callerOf] using hcw hc,
              fun w => by
                cases w
                · exact fun hh => by
                    simpa [didCompute, callerOf] using howA hh
                · exact fun hh => by
                    simpa [didCompute, callerOf] using howB hh⟩
  | finish who =>
      cases who with
      | A =>
          rcases ho : a.observed with _ | obs
          · rcases hr : a.response with _ | resp <;>
              simp only [concStep, callerOf, ho, hr] <;>
              exact ⟨fun w => by cases w <;> [exact hrA; exact hrB],
                fun w => by cases w <;> [exact hoA; exact hoB],
                fun w => by cases w <;> [exact hroA; exact hroB],
                hcache,
                by simpa [didCompute, callerOf] using hcomps,
                fun hc => by simpa [didCompute, callerOf] using hcw hc,
                fun w => by
                  cases w
                  · exact fun hh => by
                      simpa [didCompute, callerOf] using howA hh
                  · exact fun hh => by
                      simpa [didCompute, callerOf] using howB hh⟩
          · rcases hr : a.response with _ | resp
            · rcases obs with _ | v
              · -- caller A observed a miss and not yet responded: compute
                have hkey : cacheGet
                    ((statusKeyGzipped page pageSize, ⟨gz, 0 + cacheTTL⟩) ::
                     (statusKey page pageSize, ⟨data, 0 + cacheTTL⟩) :: cache)
                    (statusKey page pageSize) 0 = some data := by
                  rw [cacheGet_cons_ne _ _ _ _ _
                      (statusKey_ne_gzipped page pageSize),
                    cacheGet_cons_self]
                  simp [cacheTTL, second]
                simp only [concStep, callerOf, ho, hr, setCaller,
                  cacheSetWithTTL]
                refine ⟨?_, ?_, ?_, Or.inr hkey, ?_, ?_, ?_⟩
                · intro w
                  cases w
                  · exact Or.inr (by simp [callerOf])
                  · exact hrB
                · intro w
                  cases w
                  · exact Or.inr (Or.inl (by simp [callerOf]))
                  · exact hoB
                · intro w
                  cases w
                  · intro _
                    simp [callerOf]
                  · exact hroB
                · simp only [didCompute, callerOf]
                  rw [hcomps]
                  by_cases hb : b.observed = some none ∧ b.response.isSome = true
                  · simp [ho, hr, hb]
                  · simp [ho, hr, hb]
                · intro _
                  exact Or.inl (by simp [didCompute, callerOf])
                · intro w
                  intro _
                  exact Or.inl (by simp [didCompute, callerOf])
              · -- caller A observed a hit: respond from the cache
                have hv : v = data := by
                  rcases hoA with h0 | h0 | h0
                  · rw [ho] at h0
                    exact absurd h0 (by simp)
                  · rw [ho] at h0
                    simp at h0
                  · rw [ho] at h0
                    simpa using h0
                subst hv
                simp only [concStep, callerOf, ho, hr, setCaller]
                refine ⟨?_, ?_, ?_, hcache, ?_, ?_, ?_⟩
                · intro w
                  cases w
                  · exact Or.inr (by simp [callerOf, okResponse])
                  · exact hrB
                · intro w
                  cases w
                  · exact Or.inr (Or.inr (by simp [callerOf]))
                  · exact hoB
                · intro w
                  cases w
                  · intro _
                    simp [callerOf]
                  · exact hroB
                · simp only [didCompute, callerOf]
                  rw [hcomps]
                  simp [ho, hr]
                · intro hc
                  rcases hcw hc with ⟨h1, _⟩ | h1
                  · rw [ho] at h1
                    exact absurd h1 (by simp)
                  · exact Or.inr (by simpa [didCompute, callerOf] using h1)
                · intro w
                  cases w
                  · intro hh
                    rcases howA ho with ⟨h1, _⟩ | h1
                    · rw [ho] at h1
                      exact absurd h1 (by simp)
                    · exact Or.inr (by simpa [didCompute, callerOf] using h1)
                  · intro hh
                    simp only [callerOf] at hh
                    rcases howB hh with ⟨h1, _⟩ | h1
                    · rw [ho] at h1
                      exact absurd h1 (by simp)
                    · exact Or.inr (by simpa [didCompute, callerOf] using h1)
            · -- caller A already responded: no-op
              simp only [concStep, callerOf, ho, hr]
              exact ⟨fun w => by cases w <;> [exact hrA; exact hrB],
                fun w => by cases w <;> [exact hoA; exact hoB],
                fun w => by cases w <;> [exact hroA; exact hroB],
                hcache,
                by simpa [didCompute, callerOf] using hcomps,
                fun hc => by simpa [didCompute, callerOf] using hcw hc,
                fun w => by
                  cases w
                  · exact fun hh => by
                      simpa [didCompute, callerOf] using howA hh
                  · exact fun hh => by
                      simpa [didCompute, callerOf] using howB hh⟩
      | B =>
          rcases ho : b.observed with _ | obs
          · rcases hr : b.response with _ | resp <;>
              simp only [concStep, callerOf, ho, hr] <;>
              exact ⟨fun w => by cases w <;> [exact hrA; exact hrB],
                fun w => by cases w <;> [exact hoA; exact hoB],
                fun w => by cases w <;> [exact hroA; exact hroB],
                hcache,
                by simpa [didCompute, callerOf] using hcomps,
                fun hc => by simpa [didCompute, callerOf] using hcw hc,
                fun w => by
                  cases w
                  · exact fun hh => by
                      simpa [didCompute, callerOf] using howA hh
                  · exact fun hh => by
                      simpa [didCompute, callerOf] using howB hh⟩
          · rcases hr : b.response with _ | resp
            · rcases obs with _ | v
              · -- caller B observed a miss and not yet responded: compute
                have hkey : cacheGet
                    ((statusKeyGzipped page pageSize, ⟨gz, 0 + cacheTTL⟩) ::
                     (statusKey page pageSize, ⟨data, 0 + cacheTTL⟩) :: cache)
                    (statusKey page pageSize) 0 = some data := by
                  rw [cacheGet_cons_ne _ _ _ _ _
                      (statusKey_ne_gzipped page pageSize),
                    cacheGet_cons_self]
                  simp [cacheTTL, second]
                simp only [concStep, callerOf, ho, hr, setCaller,
                  cacheSetWithTTL]
                refine ⟨?_, ?_, ?_, Or.inr hkey, ?_, ?_, ?_⟩
                · intro w
                  cases w
                  · exact hrA
                  · exact Or.inr (by simp [callerOf])
                · intro w
                  cases w
                  · exact hoA
                  · exact Or.inr (Or.inl (by simp [callerOf]))
                · intro w
                  cases w
                  · exact hroA
                  · intro _
                    simp [callerOf]
                · simp only [didCompute, callerOf]
                  rw [hcomps]
                  by_cases ha : a.observed = some none ∧ a.response.isSome = true
                  · simp [ho, hr, ha]
                  · simp [ho, hr, ha]
                · intro _
                  exact Or.inr (by simp [didCompute, callerOf])
                · intro w
                  intro _
                  exact Or.inr (by simp [didCompute, callerOf])
              · -- caller B observed a hit: respond from the cache
                have hv : v = data := by
                  rcases hoB with h0 | h0 | h0
                  · rw [ho] at h0
                    exact absurd h0 (by simp)
                  · rw [ho] at h0
                    simp at h0
                  · rw [ho] at h0
                    simpa using h0
                subst hv
                simp only [concStep, callerOf, ho, hr, setCaller]
                refine ⟨?_, ?_, ?_, hcache, ?_, ?_, ?_⟩
                · intro w
                  cases w
                  · exact hrA
                  · exact Or.inr (by simp [callerOf, okResponse])
                · intro w
                  cases w
                  · exact hoA
                  · exact Or.inr (Or.inr (by simp [callerOf]))
                · intro w
                  cases w
                  · exact hroA
                  · intro _
                    simp [callerOf]
                · simp only [didCompute, callerOf]
                  rw [hcomps]
                  simp [ho, hr]
                · intro hc
                  rcases hcw hc with h1 | ⟨h1, _⟩
                  · exact Or.inl (by simpa [didCompute, callerOf] using h1)
                  · rw [ho] at h1
                    exact absurd h1 (by simp)
                · intro w
                  cases w
                  · intro hh
                    simp only [callerOf] at hh
                    rcases howA hh with h1 | ⟨h1, _⟩
                    · exact Or.inl (by simpa [didCompute, callerOf] using h1)
                    · rw [ho] at h1
                      exact absurd h1 (by simp)
                  · intro hh
                    rcases howB ho with h1 | ⟨h1, _⟩
                    · exact Or.inl (by simpa [didCompute, callerOf] using h1)
                    · rw [ho] at h1
                      exact absurd h1 (by simp)
            · -- caller B already responded: no-op
              simp only [concStep, callerOf, ho, hr]
              exact ⟨fun w => by cases w <;> [exact hrA; exact hrB],
                fun w => by cases w <;> [exact hoA; exact hoB],
                fun w => by cases w <;> [exact hroA; exact hroB],
                hcache,
                by simpa [didCompute, callerOf] using hcomps,
                fun hc => by simpa [didCompute, callerOf] using hcw hc,
                fun w => by
                  cases w
                  · exact fun hh => by
                      simpa [didCompute, callerOf] using howA hh
                  · exact fun hh => by
                      simpa [didCompute, callerOf] using howB hh⟩

theorem concInv_run (page pageSize : Nat) (data gz : Bytes)
    (sched : List ConcAct) :
    ConcInv page pageSize data (concRun page pageSize data gz sched) := by
  have hgen : ∀ (l : List ConcAct) (s : ConcState),
      ConcInv page pageSize data s →
      ConcInv page pageSize data (l.foldl (concStep page pageSize data gz) s) := by
    intro l
    induction l with
    | nil => exact fun s hs => hs
    | cons act rest ih =>
        exact fun s hs => ih _ (concInv_step page pageSize data gz s hs act)
  exact hgen sched _ (concInv_init page pageSize data)

/-- C1 counterexample: two concurrent callers of the statuses endpoint for
the same absent `(page, pageSize)` key, interleaved so that both `cache.Get`
reads happen before either caller computes and writes, perform two
marshalling computations — not exactly one, and each caller separately
recomputes. -/
theorem statuses_stampede_counterexample :
    (concRun 1 20 [7] [9] [ConcAct.get CallerId.A, ConcAct.get CallerId.B,
      ConcAct.finish CallerId.A, ConcAct.finish CallerId.B]).comps = 2 ∧
    ((concRun 1 20 [7] [9] [ConcAct.get CallerId.A, ConcAct.get CallerId.B,
      ConcAct.finish CallerId.A, ConcAct.finish CallerId.B]).comps = 1
      → False) := by
  exact ⟨rfl, by decide⟩

/-- C1 amended: under concurrent callers of the statuses endpoint for the
same absent key, each caller that observes the miss recomputes — so with
two callers between one and two computations occur, not always exactly
one — but every caller still receives the byte-identical 200 response
built from the shared store. -/
theorem statuses_concurrent_requests_amended (page pageSize : Nat)
    (data gz : Bytes) (sched : List ConcAct)
    (hA : (concRun page pageSize data gz sched).a.response.isSome = true)
    (hB : (concRun page pageSize data gz sched).b.response.isSome = true) :
    1 ≤ (concRun page pageSize data gz sched).comps ∧
    (concRun page pageSize data gz sched).comps ≤ 2 ∧
    (concRun page pageSize data gz sched).a.response
      = some (okResponse data) ∧
    (concRun page pageSize data gz sched).b.response
      = some (okResponse data) := by
  obtain ⟨hresp, hobs, hro, hcache, hcomps, hcw, how⟩ :=
    concInv_run page pageSize data gz sched
  have hrA := hresp CallerId.A
  have hrB := hresp CallerId.B
  have hoA := hobs CallerId.A
  have hoB := hobs CallerId.B
  have hroA := hro CallerId.A
  have howA := how CallerId.A
  simp only [callerOf] at hrA hrB hoA hoB hroA howA
  simp only [didCompute, callerOf] at hcomps hcw howA
  have hra : (concRun page pageSize data gz sched).a.response
      = some (okResponse data) := by
    rcases hrA with h0 | h0
    · rw [h0] at hA
      simp at hA
    · exact h0
  have hrb : (concRun page pageSize data gz sched).b.response
      = some (okResponse data) := by
    rcases hrB with h0 | h0
    · rw [h0] at hB
      simp at hB
    · exact h0
  refine ⟨?_, ?_, hra, hrb⟩
  · -- at least one computation happened
    have hd : ((concRun page pageSize data gz sched).a.observed = some none ∧
          (concRun page pageSize data gz sched).a.response.isSome = true) ∨
        ((concRun page pageSize data gz sched).b.observed = some none ∧
          (concRun page pageSize data gz sched).b.response.isSome = true) := by
      rcases hoA with h0 | h0 | h0
      · exact absurd h0 (hroA hA)
      · exact Or.inl ⟨h0, hA⟩
      · exact howA h0
    rw [hcomps]
    rcases hd with hd | hd
    · rw [if_pos hd]
      omega
    · rw [if_pos hd]
      omega
  · rw [hcomps]
    split_ifs <;> omega

/-- Witness for `statuses_concurrent_requests_amended`: the sequential
schedule where A misses and computes, then B hits A's entry — one
computation, identical responses. -/
theorem statuses_concurrent_requests_amended_witness :
    1 ≤ (concRun 1 20 [7] [9] [ConcAct.get CallerId.A,
      ConcAct.finish CallerId.A, ConcAct.get CallerId.B,
      ConcAct.finish CallerId.B]).comps ∧
    (concRun 1 20 [7] [9] [ConcAct.get CallerId.A,
      ConcAct.finish CallerId.A, ConcAct.get CallerId.B,
      ConcAct.finish CallerId.B]).comps ≤ 2 ∧
    (concRun 1 20 [7] [9] [ConcAct.get CallerId.A,
      ConcAct.finish CallerId.A, ConcAct.get CallerId.B,
      ConcAct.finish CallerId.B]).a.response = some (okResponse [7]) ∧
    (concRun 1 20 [7] [9] [ConcAct.get CallerId.A,
      ConcAct.finish CallerId.A, ConcAct.get CallerId.B,
      ConcAct.finish CallerId.B]).b.response = some (okResponse [7]) :=
  statuses_concurrent_requests_amended 1 20 [7] [9]
    [ConcAct.get CallerId.A, ConcAct.finish CallerId.A,
     ConcAct.get CallerId.B, ConcAct.finish CallerId.B] rfl rfl

end Gatus
